import Mathlib

/-!
Verification development for `scripts/image-scrapers/scrape_social_images.py`:
a social-media image scraper with three source adapters (Reddit, Pinterest,
Flickr) feeding an aggregator that concatenates and sorts records by score.

Strings are modelled as lists of characters (`Str`), matching Python's view of
a `str` as a sequence of characters.  Upstream HTTP/JSON responses are
modelled per adapter as explicit outcome values (transport error, non-success
HTTP status, or a parsed list of items); the dictionary `.get` accesses with
defaults become `Option` fields with `getD`.
-/

abbrev Str := List Char

/-- Convert a Lean string literal into the character-list model. -/
def lit (s : String) : Str := s.toList

/-- Python truthiness of an optional string value: `None` and `''` are falsy. -/
def truthy : Option Str → Bool
  | none => false
  | some s => !s.isEmpty

/-- Python's `a or b` on optional strings: returns `a` when truthy, else `b`. -/
def pyOr (a b : Option Str) : Option Str := if truthy a then a else b

/-- Python f-string rendering of a possibly-`None` value: `None` prints as
the four characters `None`. -/
def pyRender : Option Str → Str
  | none => lit "None"
  | some s => s

/-- Python `str.lower()`, per character (ASCII case mapping). -/
def lower (s : Str) : Str := s.map Char.toLower

/-- `leadsWith pat s` holds when `pat` is a prefix of `s` (character-wise). -/
def leadsWith : Str → Str → Bool
  | [], _ => true
  | _ :: _, [] => false
  | p :: ps, c :: cs => p == c && leadsWith ps cs

/-- Python's substring containment `needle in hay`. -/
def hasSub (needle : Str) : Str → Bool
  | [] => needle.isEmpty
  | c :: rest => leadsWith needle (c :: rest) || hasSub needle rest

/-- Fuelled worker for `pyReplace`; the fuel is an upper bound on the length
of the remaining string, so the zero-fuel clause is never reached on a
non-empty string at the call sites. -/
def pyReplaceAux (pat rep : Str) : Nat → Str → Str
  | 0, s => s
  | _ + 1, [] => []
  | fuel + 1, c :: rest =>
    if leadsWith pat (c :: rest) && !pat.isEmpty then
      rep ++ pyReplaceAux pat rep fuel ((c :: rest).drop pat.length)
    else
      c :: pyReplaceAux pat rep fuel rest

/-- Python `s.replace(pat, rep)` for a non-empty pattern: replace every
non-overlapping occurrence of `pat`, scanning left to right.  (The script
only calls `replace` with the fixed non-empty pattern `"_m.jpg"`.) -/
def pyReplace (s pat rep : Str) : Str := pyReplaceAux pat rep s.length s

/-- The medium-size filename suffix `"_m.jpg"`. -/
def mjpg : Str := lit "_m.jpg"

/-- The large-size filename suffix `"_b.jpg"`. -/
def bjpg : Str := lit "_b.jpg"

/-- The canonical output unit: one normalized image record.  Keys that a
source may omit (or store as `None`) are `Option` fields; the Pinterest
adapter stores no `timestamp` key and the Flickr adapter stores no `score`
key, modelled as `none`. -/
structure ImageRecord where
  url : Str
  title : Option Str
  author : Option Str
  author_url : Option Str
  platform : Str
  score : Option Int
  timestamp : Option Str
  source_url : Option Str
deriving DecidableEq, Repr

/-! ### Forum-source adapter (`scrape_reddit_images`) -/

/-- One Reddit post's `data` dictionary, restricted to the keys the adapter
reads.  `url` models `post_data.get('url', '')` (we store the defaulted
value); the rest keep their `.get` optionality. -/
structure RedditPost where
  url : Str
  title : Option Str
  author : Option Str
  score : Option Int
  created_utc : Option Int
  permalink : Option Str
deriving DecidableEq, Repr

/-- The fixed list of photography sub-communities searched in order. -/
def subreddits : List Str :=
  [lit "itookapicture", lit "travelphotography", lit "earthporn",
   lit "cityporn", lit "villageporn", lit "architectureporn"]

/-- The fixed image-extension set of the `url.endswith((...))` test. -/
def imageExts : List Str :=
  [lit ".jpg", lit ".jpeg", lit ".png", lit ".gif", lit ".webp"]

/-- The image test: URL ends with a known image extension, or contains one of
the two direct-image-hosting domain strings (`'i.redd.it' in url`,
`'i.imgur.com' in url`). -/
def is_image (url : Str) : Bool :=
  imageExts.any (fun ext => ext.isSuffixOf url) ||
    hasSub (lit "i.redd.it") url || hasSub (lit "i.imgur.com") url

/-- The fixed exclusion keyword list (`exclude` in the script). -/
def exclude : List Str :=
  [lit "meme", lit "funny", lit "joke", lit "selfie", lit "my face"]

/-- Title filter: the lower-cased title contains some exclusion keyword. -/
def excludedTitle (title : Str) : Bool :=
  exclude.any (fun kw => hasSub kw (lower title))

/-- Decimal digits of a natural number. -/
def natDigits (n : Nat) : Str := (Nat.repr n).toList

/-- Zero-padded two-digit field. -/
def pad2 (n : Nat) : Str := if n < 10 then '0' :: natDigits n else natDigits n

/-- Zero-padded four-digit field (year). -/
def pad4 (n : Nat) : Str :=
  if n < 10 then lit "000" ++ natDigits n
  else if n < 100 then lit "00" ++ natDigits n
  else if n < 1000 then lit "0" ++ natDigits n
  else natDigits n

/-- Render a (possibly negative) year. -/
def yearDigits (y : Int) : Str :=
  if y < 0 then '-' :: pad4 y.natAbs else pad4 y.toNat

/-- Proleptic-Gregorian civil date from a count of days since 1970-01-01
(the standard era-based days-to-civil conversion). -/
def civilFromDays (z0 : Int) : Int × Nat × Nat :=
  let z := z0 + 719468
  let era := z.fdiv 146097
  let doe := (z - era * 146097).toNat
  let yoe := (doe - doe / 1460 + doe / 36524 - doe / 146096) / 365
  let doy := doe - (365 * yoe + yoe / 4 - yoe / 100)
  let mp := (5 * doy + 2) / 153
  let d := doy - (153 * mp + 2) / 5 + 1
  let m := if mp < 10 then mp + 3 else mp - 9
  let y : Int := (yoe : Int) + era * 400 + (if m ≤ 2 then 1 else 0)
  (y, m, d)

/-- Model of `datetime.fromtimestamp(t).isoformat()` for an integral number
of epoch seconds, rendered in UTC as `YYYY-MM-DDTHH:MM:SS`. -/
def isoformatOfEpoch (t : Int) : Str :=
  let days := t.fdiv 86400
  let secs := (t - days * 86400).toNat
  match civilFromDays days with
  | (y, m, d) =>
    yearDigits y ++ lit "-" ++ pad2 m ++ lit "-" ++ pad2 d ++ lit "T" ++
      pad2 (secs / 3600) ++ lit ":" ++ pad2 (secs % 3600 / 60) ++ lit ":" ++
      pad2 (secs % 60)

/-- The record dictionary appended for an accepted Reddit post. -/
def mkRedditRecord (p : RedditPost) : ImageRecord :=
  { url := p.url
  , title := p.title
  , author := p.author
  , author_url := some (lit "https://reddit.com/u/" ++ pyRender p.author)
  , platform := lit "Reddit"
  , score := some (p.score.getD 0)
  , timestamp := some (isoformatOfEpoch (p.created_utc.getD 0))
  , source_url := some (lit "https://reddit.com" ++ pyRender p.permalink) }

/-- Per-post body of the Reddit loop: image-URL test, then keyword filter,
then record construction; `none` means the post contributes no record. -/
def processRedditPost (p : RedditPost) : Option ImageRecord :=
  if !is_image p.url then none
  else if excludedTitle (p.title.getD []) then none
  else some (mkRedditRecord p)

/-- The inner `for post in posts` loop: breaks as soon as the running list
has reached the cap, otherwise appends accepted posts one by one. -/
def redditPostsLoop (cap : Nat) : List RedditPost → List ImageRecord → List ImageRecord
  | [], images => images
  | p :: ps, images =>
    if cap ≤ images.length then images
    else
      match processRedditPost p with
      | none => redditPostsLoop cap ps images
      | some r => redditPostsLoop cap ps (images ++ [r])

/-- Outcome of one sub-community request: a raised transport/parse exception,
a non-success HTTP status, or a parsed post list. -/
inductive SubResult where
  | err
  | httpError (code : Nat)
  | ok (posts : List RedditPost)
deriving DecidableEq, Repr

/-- Effect of one sub-community's outcome on the accumulated record list:
errors and bad statuses contribute nothing (`continue`), a parsed post list
runs the inner post loop. -/
def subPosts (images : List ImageRecord) (cap : Nat) : SubResult → List ImageRecord
  | .err => images
  | .httpError _ => images
  | .ok posts => redditPostsLoop cap posts images

/-- The outer `for subreddit in subreddits` loop.  Besides the record list
(the script's return value) it also returns the visit trace: each visited
sub-community paired with the record count at the moment of its visit.  The
trace is instrumentation for stating when the loop stops; the first
component is exactly the script's `images` list. -/
def redditSubLoop (cap : Nat) (resp : Str → SubResult) :
    List Str → List ImageRecord → List ImageRecord × List (Str × Nat)
  | [], images => (images, [])
  | s :: rest, images =>
    if cap ≤ images.length then (images, [])
    else
      let images' := subPosts images cap (resp s)
      let result := redditSubLoop cap resp rest images'
      (result.1, (s, images.length) :: result.2)

/-- `scrape_reddit_images`: run the sub-community loop over the fixed list,
starting from the empty record list. -/
def scrape_reddit_images (cap : Nat) (resp : Str → SubResult) : List ImageRecord :=
  (redditSubLoop cap resp subreddits []).1

/-- The visit trace of a `scrape_reddit_images` run. -/
def redditVisited (cap : Nat) (resp : Str → SubResult) : List (Str × Nat) :=
  (redditSubLoop cap resp subreddits []).2

/-! ### Discovery-site adapter (`scrape_pinterest_images`) -/

/-- One Pinterest result entry, restricted to the keys the adapter reads
(each a chain of `.get` accesses that may yield `None`). -/
structure PinterestPin where
  orig_url : Option Str
  url736 : Option Str
  url564 : Option Str
  title : Option Str
  grid_title : Option Str
  pinner_username : Option Str
  pinner_profile_url : Option Str
  saves : Option Int
  id : Option Str
deriving DecidableEq, Repr

/-- The `or`-chain selecting the image URL: `orig`, else `736x`, else `564x`
(Python `or`, so empty strings are passed over like `None`). -/
def pinImageUrl (pin : PinterestPin) : Option Str :=
  pyOr (pyOr pin.orig_url pin.url736) pin.url564

/-- Per-pin body of the Pinterest loop: skip when the selected image URL is
falsy, otherwise build the record. -/
def processPin (pin : PinterestPin) : Option ImageRecord :=
  let image_url := pinImageUrl pin
  if truthy image_url then
    some
      { url := image_url.getD []
      , title := pyOr pin.title pin.grid_title
      , author := pin.pinner_username
      , author_url := pin.pinner_profile_url
      , platform := lit "Pinterest"
      , score := some (pin.saves.getD 0)
      , timestamp := none
      , source_url :=
          some (lit "https://www.pinterest.com/pin/" ++ pyRender pin.id ++ lit "/") }
  else none

/-- Outcome of a single-shot adapter request. -/
inductive FetchResult (α : Type) where
  | err
  | httpError (code : Nat)
  | ok (items : List α)
deriving DecidableEq, Repr

/-- `scrape_pinterest_images`: on any failure return the empty list; on
success truncate the result list to the cap (`pins[:max_images]`) and map
the per-pin body over it. -/
def scrape_pinterest_images (cap : Nat) (resp : FetchResult PinterestPin) :
    List ImageRecord :=
  match resp with
  | .err => []
  | .httpError _ => []
  | .ok pins => (pins.take cap).filterMap processPin

/-! ### Feed-source adapter (`scrape_flickr_images`) -/

/-- One Flickr feed item, restricted to the keys the adapter reads. -/
structure FlickrItem where
  media_m : Option Str
  title : Option Str
  author : Option Str
  author_url : Option Str
  published : Option Str
  link : Option Str
deriving DecidableEq, Repr

/-- `author.split('(')[1].split(')')[0]` under the guard
`'(' in author and ')' in author`: the text after the first `(`, cut at the
next `(` (end of `split('(')[1]`) and then at the first `)`. -/
def extractAuthor (raw : Str) : Str :=
  if raw.contains '(' && raw.contains ')' then
    (((raw.dropWhile (fun c => !(c == '('))).drop 1).takeWhile
        (fun c => !(c == '('))).takeWhile (fun c => !(c == ')'))
  else raw

/-- Per-item body of the Flickr loop: derive the large-size URL by the
`_m.jpg` → `_b.jpg` substitution, skip when the result is falsy, otherwise
build the record (no `score` key, so `score := none`). -/
def processFlickrItem (it : FlickrItem) : Option ImageRecord :=
  let image_url := pyReplace (it.media_m.getD []) mjpg bjpg
  if image_url.isEmpty then none
  else
    some
      { url := image_url
      , title := it.title
      , author := some (extractAuthor (it.author.getD []))
      , author_url := it.author_url
      , platform := lit "Flickr"
      , score := none
      , timestamp := it.published
      , source_url := it.link }

/-- `scrape_flickr_images`: on any failure return the empty list; on success
truncate to the cap (`items[:max_images]`) and map the per-item body. -/
def scrape_flickr_images (cap : Nat) (resp : FetchResult FlickrItem) :
    List ImageRecord :=
  match resp with
  | .err => []
  | .httpError _ => []
  | .ok items => (items.take cap).filterMap processFlickrItem

/-! ### Aggregator (`main`) -/

/-- The sort key `lambda x: x.get('score', 0)`. -/
def scoreKey (r : ImageRecord) : Int := r.score.getD 0

/-- The comparison realising `sort(key=scoreKey, reverse=True)`: `a` may
come before `b` iff `b`'s key is at most `a`'s. -/
def scoreLe (a b : ImageRecord) : Bool := decide (scoreKey b ≤ scoreKey a)

/-- Python's `list.sort(key=..., reverse=True)` is a stable descending sort;
modelled by the (stable) merge sort under `scoreLe`. -/
def sortByScoreDesc (l : List ImageRecord) : List ImageRecord :=
  l.mergeSort scoreLe

/-- The upstream responses consumed by one whole run. -/
structure Responses where
  reddit : Str → SubResult
  pinterest : FetchResult PinterestPin
  flickr : FetchResult FlickrItem

/-- The concatenation `all_images` built by `main` before sorting: the
enabled adapters are invoked in the fixed order Reddit, Pinterest, Flickr. -/
def emittedImages (cap : Nat) (useReddit usePinterest useFlickr : Bool)
    (rs : Responses) : List ImageRecord :=
  (if useReddit then scrape_reddit_images cap rs.reddit else []) ++
    ((if usePinterest then scrape_pinterest_images cap rs.pinterest else []) ++
      (if useFlickr then scrape_flickr_images cap rs.flickr else []))

/-- The output envelope: query string, record count, ordered records. -/
structure QueryResult where
  query : Str
  total_images : Nat
  images : List ImageRecord
deriving DecidableEq, Repr

/-- The aggregation performed by `main`: concatenate enabled adapters'
outputs, sort by score descending (stable), wrap with query metadata. -/
def main_aggregate (query : Str) (cap : Nat)
    (useReddit usePinterest useFlickr : Bool) (rs : Responses) : QueryResult :=
  let all_images := sortByScoreDesc (emittedImages cap useReddit usePinterest useFlickr rs)
  { query := query, total_images := all_images.length, images := all_images }

/-! ### Concrete sample inputs, used to exercise the theorems -/

/-- An accepted post: direct-image URL, clean title. -/
def samplePostGood : RedditPost :=
  { url := lit "https://i.redd.it/sunset.jpg"
  , title := some (lit "Sunset in Kyoto")
  , author := some (lit "alice")
  , score := some 123
  , created_utc := some 0
  , permalink := some (lit "/r/itookapicture/comments/1") }

/-- A meme post: valid image URL but excluded title. -/
def samplePostMeme : RedditPost :=
  { url := lit "https://i.redd.it/meme.jpg"
  , title := some (lit "Funny meme compilation")
  , author := some (lit "bob")
  , score := some 999
  , created_utc := none
  , permalink := none }

/-- A post whose URL is not an image URL. -/
def samplePostBadUrl : RedditPost :=
  { url := lit "https://example.com/page.html", title := some (lit "Nice view")
  , author := none, score := none, created_utc := none, permalink := none }

/-- An accepted post with no `created_utc` field. -/
def samplePostNoTime : RedditPost :=
  { url := lit "https://i.redd.it/a.png", title := some (lit "Harbour at dawn")
  , author := none, score := none, created_utc := none, permalink := none }

/-- Responses where only the first sub-community succeeds, with two posts. -/
def sampleResp : Str → SubResult := fun s =>
  if s = lit "itookapicture" then SubResult.ok [samplePostGood, samplePostGood]
  else SubResult.err

/-- Responses where the first sub-community fails and the rest succeed. -/
def sampleRespFail : Str → SubResult := fun s =>
  if s = lit "itookapicture" then SubResult.err
  else SubResult.ok [samplePostGood]

/-- A pin that offers only the `564x` image variant. -/
def samplePin564 : PinterestPin :=
  { orig_url := none, url736 := none
  , url564 := some (lit "https://i.pinimg.com/564x/a.jpg")
  , title := none, grid_title := some (lit "pin")
  , pinner_username := some (lit "carol"), pinner_profile_url := none
  , saves := some 7, id := some (lit "42") }

/-- A feed item with the `email (display name)` author format. -/
def sampleFlickrItem : FlickrItem :=
  { media_m := some (lit "https://live.staticflickr.com/1/2_m.jpg")
  , title := some (lit "photo")
  , author := some (lit "nobody@flickr.com (janedoe)")
  , author_url := none
  , published := some (lit "2024-01-01T00:00:00Z")
  , link := none }

/-- The record the feed adapter emits for `sampleFlickrItem`. -/
def sampleFlickrRecord : ImageRecord :=
  { url := lit "https://live.staticflickr.com/1/2_b.jpg"
  , title := some (lit "photo")
  , author := some (lit "janedoe")
  , author_url := none
  , platform := lit "Flickr"
  , score := none
  , timestamp := some (lit "2024-01-01T00:00:00Z")
  , source_url := none }

/-- A whole-run response set whose forum source always fails. -/
def sampleResponsesErr : Responses :=
  { reddit := fun _ => SubResult.err
  , pinterest := FetchResult.ok [samplePin564]
  , flickr := FetchResult.err }

/-! ### Helper lemmas: prefix test, replacement, parenthesis extraction -/

theorem leadsWith_iff (p : Str) : ∀ s : Str, leadsWith p s = true ↔ ∃ u, s = p ++ u := by
  induction p with
  | nil =>
    intro s
    simp only [leadsWith, List.nil_append, true_iff]
    exact ⟨s, rfl⟩
  | cons a p ih =>
    intro s
    cases s with
    | nil => simp [leadsWith]
    | cons c cs =>
      simp only [leadsWith, Bool.and_eq_true, beq_iff_eq, ih, List.cons_append,
        List.cons.injEq]
      constructor
      · rintro ⟨hac, u, hu⟩
        exact ⟨u, hac.symm, hu⟩
      · rintro ⟨u, hca, hu⟩
        exact ⟨hca.symm, u, hu⟩

theorem pyReplaceAux_nil (pat rep : Str) (fuel : Nat) :
    pyReplaceAux pat rep fuel [] = [] := by
  cases fuel <;> rfl

theorem mjpg_eq : mjpg = ['_', 'm', '.', 'j', 'p', 'g'] := by decide

theorem bjpg_eq : bjpg = ['_', 'b', '.', 'j', 'p', 'g'] := by decide

theorem pyReplaceAux_cons (pat rep : Str) (fuel : Nat) (c : Char) (rest : Str) :
    pyReplaceAux pat rep (fuel + 1) (c :: rest) =
      if (leadsWith pat (c :: rest) && !pat.isEmpty) = true then
        rep ++ pyReplaceAux pat rep fuel ((c :: rest).drop pat.length)
      else
        c :: pyReplaceAux pat rep fuel rest := rfl

theorem pyReplaceAux_mjpg_ends :
    ∀ (fuel : Nat) (t : Str), t.length + 6 ≤ fuel →
    ∃ v, pyReplaceAux mjpg bjpg fuel (t ++ mjpg) = v ++ bjpg := by
  intro fuel
  induction fuel with
  | zero => intro t ht; omega
  | succ n ih =>
    intro t ht
    cases t with
    | nil =>
      refine ⟨[], ?_⟩
      have h0 : pyReplaceAux mjpg bjpg (n + 1) ([] ++ mjpg) =
          bjpg ++ pyReplaceAux mjpg bjpg n [] := by
        rw [List.nil_append, mjpg_eq, bjpg_eq]; rfl
      rw [h0, pyReplaceAux_nil, List.append_nil, List.nil_append]
    | cons c t' =>
      simp only [List.cons_append]
      by_cases hlw : leadsWith mjpg (c :: (t' ++ mjpg)) = true
      · -- the pattern matches here; since it cannot overlap itself, the
        -- prefix before the final occurrence must itself be at least 6 long
        have hg : (leadsWith mjpg (c :: (t' ++ mjpg)) && !mjpg.isEmpty) = true := by
          rw [hlw]; decide
        have h6 : mjpg.length = 6 := by rw [mjpg_eq]; rfl
        rcases (leadsWith_iff mjpg (c :: (t' ++ mjpg))).mp hlw with ⟨u, hu⟩
        rw [← List.cons_append] at hu
        by_cases hk : 6 ≤ (c :: t').length
        · have hdrop : (c :: (t' ++ mjpg)).drop mjpg.length = (c :: t').drop 6 ++ mjpg := by
            rw [← List.cons_append, List.drop_append_eq_append_drop, h6,
              Nat.sub_eq_zero_of_le hk, List.drop_zero]
          have hlt : ((c :: t').drop 6).length + 6 ≤ n := by
            rw [List.length_drop]
            simp only [List.length_cons] at ht hk ⊢
            omega
          rcases ih ((c :: t').drop 6) hlt with ⟨v, hv⟩
          refine ⟨bjpg ++ v, ?_⟩
          rw [pyReplaceAux_cons, if_pos hg, hdrop, hv, List.append_assoc]
        · exfalso
          have hA : (c :: t') ++ mjpg.take (6 - (c :: t').length) = mjpg := by
            have h1 := congrArg (List.take 6) hu
            rw [List.take_append_eq_append_take,
              List.take_of_length_le (by omega : (c :: t').length ≤ 6)] at h1
            exact h1
          have hdt : mjpg.take (6 - (c :: t').length) = mjpg.drop (c :: t').length := by
            have h2 := congrArg (List.drop (c :: t').length) hA
            rw [List.drop_left] at h2
            exact h2
          have hk5 : (c :: t').length = 1 ∨ (c :: t').length = 2 ∨ (c :: t').length = 3 ∨
              (c :: t').length = 4 ∨ (c :: t').length = 5 := by
            simp only [List.length_cons] at hk ⊢
            omega
          rcases hk5 with h | h | h | h | h <;> rw [h] at hdt <;>
            exact absurd hdt (by decide)
      · have hgneg : ¬((leadsWith mjpg (c :: (t' ++ mjpg)) && !mjpg.isEmpty) = true) :=
          fun h => hlw ((Bool.and_eq_true _ _).mp h).1
        have hlt : t'.length + 6 ≤ n := by
          simp only [List.length_cons] at ht
          omega
        rcases ih t' hlt with ⟨v, hv⟩
        refine ⟨c :: v, ?_⟩
        rw [pyReplaceAux_cons, if_neg hgneg, hv, List.cons_append]

theorem pyReplace_mjpg_ends (t : Str) :
    ∃ v, pyReplace (t ++ mjpg) mjpg bjpg = v ++ bjpg := by
  have hl : (t ++ mjpg).length = t.length + 6 := by
    rw [List.length_append, mjpg_eq]; rfl
  unfold pyReplace
  rw [hl]
  exact pyReplaceAux_mjpg_ends (t.length + 6) t (le_refl _)

theorem dropWhile_append_all {p : Char → Bool} :
    ∀ (a l : Str), (∀ c ∈ a, p c = true) →
    List.dropWhile p (a ++ l) = List.dropWhile p l := by
  intro a
  induction a with
  | nil => intro l _; rfl
  | cons x a ih =>
    intro l h
    rw [List.cons_append, List.dropWhile_cons, h x (List.mem_cons_self x a)]
    exact ih l (fun c hc => h c (List.mem_cons_of_mem _ hc))

theorem takeWhile_append_all {p : Char → Bool} :
    ∀ (a l : Str), (∀ c ∈ a, p c = true) →
    List.takeWhile p (a ++ l) = a ++ List.takeWhile p l := by
  intro a
  induction a with
  | nil => intro l _; rfl
  | cons x a ih =>
    intro l h
    rw [List.cons_append, List.takeWhile_cons, h x (List.mem_cons_self x a),
      ih l (fun c hc => h c (List.mem_cons_of_mem _ hc))]
    simp

theorem extractAuthor_paren (a n b : Str)
    (ha : '(' ∉ a) (hn1 : '(' ∉ n) (hn2 : ')' ∉ n) :
    extractAuthor (a ++ '(' :: (n ++ ')' :: b)) = n := by
  have hguard : ((a ++ '(' :: (n ++ ')' :: b)).contains '(' &&
      (a ++ '(' :: (n ++ ')' :: b)).contains ')') = true := by
    rw [Bool.and_eq_true, List.elem_iff, List.elem_iff]
    constructor
    · exact List.mem_append.mpr (Or.inr (List.mem_cons_self _ _))
    · exact List.mem_append.mpr (Or.inr (List.mem_cons_of_mem _
        (List.mem_append.mpr (Or.inr (List.mem_cons_self _ _)))))
  unfold extractAuthor
  rw [if_pos hguard]
  have h1 : List.dropWhile (fun c => !(c == '(')) (a ++ '(' :: (n ++ ')' :: b)) =
      '(' :: (n ++ ')' :: b) := by
    rw [dropWhile_append_all a _ (fun c hc => by
      simp only [Bool.not_eq_true']
      exact beq_eq_false_iff_ne.mpr (fun hceq => ha (hceq ▸ hc)))]
    rw [List.dropWhile_cons]
    simp
  rw [h1, List.drop_one, List.tail_cons]
  have h2 : List.takeWhile (fun c => !(c == '(')) (n ++ ')' :: b) =
      n ++ ')' :: List.takeWhile (fun c => !(c == '(')) b := by
    rw [takeWhile_append_all n _ (fun c hc => by
      simp only [Bool.not_eq_true']
      exact beq_eq_false_iff_ne.mpr (fun hceq => hn1 (hceq ▸ hc)))]
    rw [List.takeWhile_cons]
    simp
  rw [h2]
  rw [takeWhile_append_all n _ (fun c hc => by
    simp only [Bool.not_eq_true']
    exact beq_eq_false_iff_ne.mpr (fun hceq => hn2 (hceq ▸ hc)))]
  rw [List.takeWhile_cons]
  simp

theorem extractAuthor_no_paren (raw : Str)
    (h : raw.contains '(' = false ∨ raw.contains ')' = false) :
    extractAuthor raw = raw := by
  have hguard : ¬((raw.contains '(' && raw.contains ')') = true) := by
    intro hc
    have hc2 := (Bool.and_eq_true _ _).mp hc
    rcases h with h | h
    · rw [h] at hc2; exact Bool.false_ne_true hc2.1
    · rw [h] at hc2; exact Bool.false_ne_true hc2.2
  unfold extractAuthor
  rw [if_neg hguard]

/-! ### Helper lemmas: per-post/per-item processing -/

theorem processRedditPost_some {p : RedditPost} {r : ImageRecord}
    (h : processRedditPost p = some r) :
    is_image p.url = true ∧ excludedTitle (p.title.getD []) = false ∧
    r = mkRedditRecord p := by
  unfold processRedditPost at h
  split at h
  · exact Option.noConfusion h
  · split at h
    · exact Option.noConfusion h
    · rename_i h1 h2
      refine ⟨?_, ?_, (Option.some.inj h).symm⟩
      · simpa using h1
      · simpa using h2

theorem processRedditPost_none_of_not_image {p : RedditPost}
    (h : is_image p.url = false) : processRedditPost p = none := by
  unfold processRedditPost
  rw [h]
  rfl

theorem processRedditPost_none_of_excluded {p : RedditPost}
    (h : excludedTitle (p.title.getD []) = true) : processRedditPost p = none := by
  unfold processRedditPost
  by_cases h1 : is_image p.url
  · rw [h1, h]; rfl
  · rw [Bool.not_eq_true] at h1; rw [h1]; rfl

theorem processRedditPost_accept {p : RedditPost}
    (h1 : is_image p.url = true) (h2 : excludedTitle (p.title.getD []) = false) :
    processRedditPost p = some (mkRedditRecord p) := by
  unfold processRedditPost
  rw [h1, h2]
  rfl

theorem is_image_ne_nil {u : Str} (h : is_image u = true) : u ≠ [] := by
  intro hn
  rw [hn] at h
  exact absurd h (by decide)

theorem redditPostsLoop_mem {cap : Nat} {r : ImageRecord} :
    ∀ (posts : List RedditPost) (images : List ImageRecord),
    r ∈ redditPostsLoop cap posts images →
    r ∈ images ∨ ∃ p, processRedditPost p = some r := by
  intro posts
  induction posts with
  | nil => intro images h; exact Or.inl h
  | cons p ps ih =>
    intro images h
    simp only [redditPostsLoop] at h
    split at h
    · exact Or.inl h
    · split at h
      · exact ih _ h
      · rename_i r' hr'
        rcases ih _ h with hmem | hex
        · rcases List.mem_append.mp hmem with h1 | h2
          · exact Or.inl h1
          · refine Or.inr ⟨p, ?_⟩
            rw [hr', List.mem_singleton.mp h2]
        · exact Or.inr hex

theorem redditPostsLoop_length {cap : Nat} :
    ∀ (posts : List RedditPost) (images : List ImageRecord),
    images.length ≤ cap → (redditPostsLoop cap posts images).length ≤ cap := by
  intro posts
  induction posts with
  | nil => intro images h; exact h
  | cons p ps ih =>
    intro images h
    simp only [redditPostsLoop]
    split
    · exact h
    · rename_i hlt
      split
      · exact ih images h
      · apply ih
        rw [List.length_append]
        simp only [List.length_singleton]
        omega

theorem subPosts_mem {cap : Nat} {r : ImageRecord} {images : List ImageRecord}
    {sr : SubResult} (h : r ∈ subPosts images cap sr) :
    r ∈ images ∨ ∃ p, processRedditPost p = some r := by
  cases sr with
  | err => exact Or.inl h
  | httpError code => exact Or.inl h
  | ok posts => exact redditPostsLoop_mem posts images h

theorem subPosts_length {cap : Nat} {images : List ImageRecord}
    (h : images.length ≤ cap) (sr : SubResult) :
    (subPosts images cap sr).length ≤ cap := by
  cases sr with
  | err => exact h
  | httpError code => exact h
  | ok posts => exact redditPostsLoop_length posts images h

theorem redditSubLoop_mem {cap : Nat} {resp : Str → SubResult} {r : ImageRecord} :
    ∀ (subs : List Str) (images : List ImageRecord),
    r ∈ (redditSubLoop cap resp subs images).1 →
    r ∈ images ∨ ∃ p, processRedditPost p = some r := by
  intro subs
  induction subs with
  | nil => intro images h; exact Or.inl h
  | cons s rest ih =>
    intro images h
    simp only [redditSubLoop] at h
    split at h
    · exact Or.inl h
    · rcases ih _ h with hmem | hex
      · exact subPosts_mem hmem
      · exact Or.inr hex

theorem redditSubLoop_length {cap : Nat} {resp : Str → SubResult} :
    ∀ (subs : List Str) (images : List ImageRecord),
    images.length ≤ cap → (redditSubLoop cap resp subs images).1.length ≤ cap := by
  intro subs
  induction subs with
  | nil => intro images h; exact h
  | cons s rest ih =>
    intro images h
    simp only [redditSubLoop]
    split
    · exact h
    · exact ih _ (subPosts_length h (resp s))

theorem redditSubLoop_visited {cap : Nat} {resp : Str → SubResult} :
    ∀ (subs : List Str) (images : List ImageRecord),
    (∀ sc ∈ (redditSubLoop cap resp subs images).2, sc.2 < cap) ∧
    (redditSubLoop cap resp subs images).2.map Prod.fst =
      subs.take (redditSubLoop cap resp subs images).2.length ∧
    ((redditSubLoop cap resp subs images).2.length < subs.length →
      cap ≤ (redditSubLoop cap resp subs images).1.length) := by
  intro subs
  induction subs with
  | nil =>
    intro images
    refine ⟨?_, rfl, ?_⟩
    · intro sc hsc; exact absurd hsc (List.not_mem_nil sc)
    · intro hl; simp at hl
  | cons s rest ih =>
    intro images
    simp only [redditSubLoop]
    split
    · rename_i hc
      refine ⟨?_, rfl, fun _ => hc⟩
      intro sc hsc; exact absurd hsc (List.not_mem_nil sc)
    · rename_i hc
      refine ⟨?_, ?_, ?_⟩
      · intro sc hsc
        rcases List.mem_cons.mp hsc with h1 | h2
        · rw [h1]; omega
        · exact (ih (subPosts images cap (resp s))).1 sc h2
      · rw [List.map_cons, List.length_cons, List.take_succ_cons,
          (ih (subPosts images cap (resp s))).2.1]
      · rw [List.length_cons, List.length_cons]
        intro hl
        exact (ih (subPosts images cap (resp s))).2.2 (by omega)

theorem redditSubLoop_skip {cap : Nat} {resp : Str → SubResult} {s : Str}
    {rest : List Str} {images : List ImageRecord}
    (herr : resp s = SubResult.err ∨ ∃ code, resp s = SubResult.httpError code)
    (hlt : images.length < cap) :
    (redditSubLoop cap resp (s :: rest) images).1 =
      (redditSubLoop cap resp rest images).1 := by
  simp only [redditSubLoop]
  rw [if_neg (by omega : ¬ cap ≤ images.length)]
  rcases herr with h | ⟨code, h⟩ <;> rw [h] <;> rfl

theorem redditSubLoop_all_err {cap : Nat} {resp : Str → SubResult}
    (h : ∀ s, resp s = SubResult.err) :
    ∀ (subs : List Str) (images : List ImageRecord),
    (redditSubLoop cap resp subs images).1 = images := by
  intro subs
  induction subs with
  | nil => intro images; rfl
  | cons s rest ih =>
    intro images
    simp only [redditSubLoop]
    split
    · rfl
    · rw [h s]
      exact ih images

theorem truthy_some_ne_nil {o : Option Str} (h : truthy o = true) :
    o = some (o.getD []) ∧ o.getD [] ≠ [] := by
  cases o with
  | none => exact absurd h (by simp [truthy])
  | some s =>
    refine ⟨rfl, ?_⟩
    simp only [truthy, Bool.not_eq_true'] at h
    exact List.isEmpty_eq_false.mp h

theorem processPin_some {pin : PinterestPin} {r : ImageRecord}
    (h : processPin pin = some r) :
    truthy (pinImageUrl pin) = true ∧ r.url = (pinImageUrl pin).getD [] ∧
    r.platform = lit "Pinterest" ∧ r.score = some (pin.saves.getD 0) := by
  simp only [processPin] at h
  split at h
  · rename_i ht
    refine ⟨ht, ?_, ?_, ?_⟩ <;> rw [← Option.some.inj h]
  · exact Option.noConfusion h

theorem processPin_emit {pin : PinterestPin} (h : truthy (pinImageUrl pin) = true) :
    ∃ r, processPin pin = some r ∧ r.url = (pinImageUrl pin).getD [] := by
  cases hp : processPin pin with
  | none =>
    simp only [processPin, if_pos h] at hp
    exact Option.noConfusion hp
  | some r => exact ⟨r, rfl, (processPin_some hp).2.1⟩

theorem processPin_none {pin : PinterestPin} (h : truthy (pinImageUrl pin) = false) :
    processPin pin = none := by
  simp only [processPin, h]
  rfl

theorem scrape_pinterest_mem {cap : Nat} {resp : FetchResult PinterestPin}
    {r : ImageRecord} (h : r ∈ scrape_pinterest_images cap resp) :
    ∃ pin, processPin pin = some r := by
  cases resp with
  | err => exact absurd h (List.not_mem_nil r)
  | httpError code => exact absurd h (List.not_mem_nil r)
  | ok pins =>
    rcases List.mem_filterMap.mp h with ⟨pin, _, hp⟩
    exact ⟨pin, hp⟩

theorem processFlickrItem_some {it : FlickrItem} {r : ImageRecord}
    (h : processFlickrItem it = some r) :
    (pyReplace (it.media_m.getD []) mjpg bjpg).isEmpty = false ∧
    r.url = pyReplace (it.media_m.getD []) mjpg bjpg ∧
    r.author = some (extractAuthor (it.author.getD [])) ∧
    r.platform = lit "Flickr" ∧ r.score = none := by
  simp only [processFlickrItem] at h
  split at h
  · exact Option.noConfusion h
  · rename_i he
    rw [Bool.not_eq_true] at he
    refine ⟨he, ?_, ?_, ?_, ?_⟩ <;> rw [← Option.some.inj h]

theorem processFlickrItem_emit {it : FlickrItem}
    (h : (pyReplace (it.media_m.getD []) mjpg bjpg).isEmpty = false) :
    ∃ r, processFlickrItem it = some r ∧
      r.url = pyReplace (it.media_m.getD []) mjpg bjpg := by
  cases hp : processFlickrItem it with
  | none =>
    simp only [processFlickrItem, h] at hp
    exact Option.noConfusion hp
  | some r => exact ⟨r, rfl, (processFlickrItem_some hp).2.1⟩

theorem scrape_flickr_mem {cap : Nat} {resp : FetchResult FlickrItem}
    {r : ImageRecord} (h : r ∈ scrape_flickr_images cap resp) :
    ∃ it, processFlickrItem it = some r := by
  cases resp with
  | err => exact absurd h (List.not_mem_nil r)
  | httpError code => exact absurd h (List.not_mem_nil r)
  | ok items =>
    rcases List.mem_filterMap.mp h with ⟨it, _, hp⟩
    exact ⟨it, hp⟩

/-! ### Helper lemmas: the stable descending sort -/

theorem scoreLe_trans (a b c : ImageRecord) (h1 : scoreLe a b = true)
    (h2 : scoreLe b c = true) : scoreLe a c = true := by
  simp only [scoreLe, decide_eq_true_eq] at h1 h2 ⊢
  omega

theorem scoreLe_total (a b : ImageRecord) : (scoreLe a b || scoreLe b a) = true := by
  simp only [scoreLe, Bool.or_eq_true, decide_eq_true_eq]
  omega

theorem sortByScoreDesc_sorted (l : List ImageRecord) :
    (sortByScoreDesc l).Pairwise (fun a b => scoreKey b ≤ scoreKey a) := by
  have h := List.sorted_mergeSort scoreLe_trans scoreLe_total l
  exact h.imp (fun hab => by
    simpa only [scoreLe, decide_eq_true_eq] using hab)

theorem sortByScoreDesc_stable (l : List ImageRecord) (s : Int) :
    (sortByScoreDesc l).filter (fun r => decide (scoreKey r = s)) =
      l.filter (fun r => decide (scoreKey r = s)) := by
  set p : ImageRecord → Bool := fun r => decide (scoreKey r = s) with hp
  have hkey : ∀ r ∈ l.filter p, scoreKey r = s := by
    intro r hr
    have := (List.mem_filter.mp hr).2
    rw [hp] at this
    exact of_decide_eq_true this
  have hpair : (l.filter p).Pairwise (fun a b => scoreLe a b = true) := by
    apply List.pairwise_of_forall_mem_list
    intro a ha b hb
    simp only [scoreLe, hkey a ha, hkey b hb, decide_eq_true_eq]
    exact le_refl s
  have hsub : (l.filter p).Sublist (sortByScoreDesc l) :=
    List.sublist_mergeSort scoreLe_trans scoreLe_total hpair (List.filter_sublist l)
  have hsub2 : (l.filter p).Sublist ((sortByScoreDesc l).filter p) := by
    have h1 := List.Sublist.filter p hsub
    have h2 : (l.filter p).filter p = l.filter p := by
      rw [List.filter_filter]
      apply List.filter_congr
      intro r hr
      simp [Bool.and_self]
    rwa [h2] at h1
  have hperm : ((sortByScoreDesc l).filter p).Perm (l.filter p) :=
    (List.mergeSort_perm l scoreLe).filter p
  exact (hsub2.eq_of_length (hperm.length_eq.symm)).symm

/-! ### Claim theorems -/

/-- C1: the aggregator's `images` sequence is sorted by `score` descending,
and the sort is stable: for every score value, the records carrying it appear
in exactly the order in which the enabled adapters (invoked in the fixed
order Reddit, Pinterest, Flickr) emitted them. -/
theorem aggregator_images_sorted_stable (query : Str) (cap : Nat)
    (useReddit usePinterest useFlickr : Bool) (rs : Responses) :
    (main_aggregate query cap useReddit usePinterest useFlickr rs).images.Pairwise
      (fun a b => scoreKey b ≤ scoreKey a) ∧
    ∀ s : Int,
      (main_aggregate query cap useReddit usePinterest useFlickr rs).images.filter
          (fun r => decide (scoreKey r = s)) =
        (emittedImages cap useReddit usePinterest useFlickr rs).filter
          (fun r => decide (scoreKey r = s)) := by
  constructor
  · exact sortByScoreDesc_sorted (emittedImages cap useReddit usePinterest useFlickr rs)
  · intro s
    exact sortByScoreDesc_stable (emittedImages cap useReddit usePinterest useFlickr rs) s

/-- C2: every record emitted by any of the three adapters, for any upstream
response, has a non-empty `url` and a `platform` from the fixed three-name
enumeration. -/
theorem adapters_url_platform_invariant :
    (∀ (cap : Nat) (resp : Str → SubResult) (r : ImageRecord),
        r ∈ scrape_reddit_images cap resp →
        r.url ≠ [] ∧ r.platform ∈ [lit "Reddit", lit "Pinterest", lit "Flickr"]) ∧
    (∀ (cap : Nat) (resp : FetchResult PinterestPin) (r : ImageRecord),
        r ∈ scrape_pinterest_images cap resp →
        r.url ≠ [] ∧ r.platform ∈ [lit "Reddit", lit "Pinterest", lit "Flickr"]) ∧
    (∀ (cap : Nat) (resp : FetchResult FlickrItem) (r : ImageRecord),
        r ∈ scrape_flickr_images cap resp →
        r.url ≠ [] ∧ r.platform ∈ [lit "Reddit", lit "Pinterest", lit "Flickr"]) := by
  refine ⟨?_, ?_, ?_⟩
  · intro cap resp r h
    rcases redditSubLoop_mem subreddits [] h with hmem | ⟨p, hp⟩
    · exact absurd hmem (List.not_mem_nil r)
    · rcases processRedditPost_some hp with ⟨hi, _, hr⟩
      subst hr
      exact ⟨is_image_ne_nil hi, List.mem_cons_self _ _⟩
  · intro cap resp r h
    rcases scrape_pinterest_mem h with ⟨pin, hp⟩
    rcases processPin_some hp with ⟨ht, hurl, hplat, _⟩
    refine ⟨?_, ?_⟩
    · rw [hurl]; exact (truthy_some_ne_nil ht).2
    · rw [hplat]
      exact List.mem_cons_of_mem _ (List.mem_cons_self _ _)
  · intro cap resp r h
    rcases scrape_flickr_mem h with ⟨it, hp⟩
    rcases processFlickrItem_some hp with ⟨he, hurl, _, hplat, _⟩
    refine ⟨?_, ?_⟩
    · rw [hurl]; exact List.isEmpty_eq_false.mp he
    · rw [hplat]
      exact List.mem_cons_of_mem _ (List.mem_cons_of_mem _ (List.mem_cons_self _ _))

theorem adapters_url_platform_invariant_witness :
    (mkRedditRecord samplePostGood).url ≠ [] ∧
    (mkRedditRecord samplePostGood).platform ∈
      [lit "Reddit", lit "Pinterest", lit "Flickr"] :=
  adapters_url_platform_invariant.1 5 sampleResp (mkRedditRecord samplePostGood)
    (by decide)

/-- C3: a Reddit post is accepted as an image only if its URL passes the
`is_image` test (ends with one of the five image extensions, or contains one
of the two direct-image-hosting domain strings); a post failing that test
produces no record, and every record in the adapter's output has a URL
passing the test. -/
theorem reddit_image_url_filter :
    (∀ p : RedditPost, is_image p.url = false → processRedditPost p = none) ∧
    (∀ (p : RedditPost) (r : ImageRecord),
        processRedditPost p = some r → is_image p.url = true) ∧
    (∀ (cap : Nat) (resp : Str → SubResult) (r : ImageRecord),
        r ∈ scrape_reddit_images cap resp → is_image r.url = true) := by
  refine ⟨fun p h => processRedditPost_none_of_not_image h,
    fun p r h => (processRedditPost_some h).1, ?_⟩
  intro cap resp r h
  rcases redditSubLoop_mem subreddits [] h with hmem | ⟨p, hp⟩
  · exact absurd hmem (List.not_mem_nil r)
  · rcases processRedditPost_some hp with ⟨hi, _, hr⟩
    rw [hr]
    exact hi

theorem reddit_image_url_filter_witness :
    processRedditPost samplePostBadUrl = none :=
  reddit_image_url_filter.1 samplePostBadUrl (by decide)

/-- C4: a Reddit post whose lower-cased title contains an exclusion keyword
is rejected even if its URL is a valid image URL; a post passing both the
image test and the keyword filter is mapped to a record whose score is the
post's upvote field (defaulted to 0 when absent). -/
theorem reddit_keyword_filter_and_score :
    (∀ p : RedditPost, excludedTitle (p.title.getD []) = true →
        processRedditPost p = none) ∧
    (∀ p : RedditPost, is_image p.url = true →
        excludedTitle (p.title.getD []) = false →
        processRedditPost p = some (mkRedditRecord p) ∧
        (mkRedditRecord p).score = some (p.score.getD 0)) :=
  ⟨fun _ h => processRedditPost_none_of_excluded h,
    fun _ h1 h2 => ⟨processRedditPost_accept h1 h2, rfl⟩⟩

theorem reddit_keyword_filter_and_score_witness :
    is_image samplePostMeme.url = true ∧
    processRedditPost samplePostMeme = none ∧
    processRedditPost samplePostGood = some (mkRedditRecord samplePostGood) ∧
    (mkRedditRecord samplePostGood).score = some 123 :=
  ⟨by decide,
    reddit_keyword_filter_and_score.1 samplePostMeme (by decide),
    (reddit_keyword_filter_and_score.2 samplePostGood (by decide) (by decide)).1,
    (reddit_keyword_filter_and_score.2 samplePostGood (by decide) (by decide)).2⟩

/-- C5: for every cap, the Reddit adapter returns at most `cap` records; the
visit trace shows the cap is enforced incrementally: every sub-community
visit happens while the running total is still below the cap, the visited
sub-communities are an initial segment of the fixed list, and if any
sub-community was left unvisited the returned total has reached the cap. -/
theorem reddit_cap_enforced (cap : Nat) (resp : Str → SubResult) :
    (scrape_reddit_images cap resp).length ≤ cap ∧
    (∀ sc ∈ redditVisited cap resp, sc.2 < cap) ∧
    (redditVisited cap resp).map Prod.fst =
      subreddits.take (redditVisited cap resp).length ∧
    ((redditVisited cap resp).length < subreddits.length →
      cap ≤ (scrape_reddit_images cap resp).length) := by
  refine ⟨redditSubLoop_length subreddits [] (by simp), ?_, ?_, ?_⟩
  · exact (redditSubLoop_visited subreddits []).1
  · exact (redditSubLoop_visited subreddits []).2.1
  · exact (redditSubLoop_visited subreddits []).2.2

theorem reddit_cap_enforced_witness :
    (scrape_reddit_images 1 sampleResp).length ≤ 1 ∧ (0 : Nat) < 1 ∧
    1 ≤ (scrape_reddit_images 1 sampleResp).length :=
  ⟨(reddit_cap_enforced 1 sampleResp).1,
    (reddit_cap_enforced 1 sampleResp).2.1 (lit "itookapicture", 0) (by decide),
    (reddit_cap_enforced 1 sampleResp).2.2.2 (by decide)⟩

/-- C6: the Pinterest adapter picks the first available (present and
non-empty) URL in the preference order `orig`, `736x`, `564x`; an entry with
none of the three yields no record; an entry with only a `564x` URL yields a
record whose url is exactly that URL. -/
theorem pinterest_url_preference :
    (∀ pin : PinterestPin, truthy (pinImageUrl pin) = false →
        processPin pin = none) ∧
    (∀ (pin : PinterestPin) (r : ImageRecord),
        processPin pin = some r → some r.url = pinImageUrl pin) ∧
    (∀ (pin : PinterestPin) (u : Str),
        pin.orig_url = none → pin.url736 = none → pin.url564 = some u →
        u ≠ [] → ∃ r, processPin pin = some r ∧ r.url = u) := by
  refine ⟨fun pin h => processPin_none h, ?_, ?_⟩
  · intro pin r h
    rcases processPin_some h with ⟨ht, hurl, _, _⟩
    rw [hurl]
    exact ((truthy_some_ne_nil ht).1).symm
  · intro pin u h1 h2 h3 hne
    have hpin : pinImageUrl pin = some u := by
      unfold pinImageUrl
      rw [h1, h2, h3]
      rfl
    have ht : truthy (pinImageUrl pin) = true := by
      rw [hpin]
      simp [truthy, List.isEmpty_eq_false.mpr hne]
    rcases processPin_emit ht with ⟨r, hr, hurl⟩
    refine ⟨r, hr, ?_⟩
    rw [hurl, hpin]
    rfl

theorem pinterest_url_preference_witness :
    ∃ r, processPin samplePin564 = some r ∧
      r.url = lit "https://i.pinimg.com/564x/a.jpg" :=
  pinterest_url_preference.2.2 samplePin564 (lit "https://i.pinimg.com/564x/a.jpg")
    rfl rfl rfl (by decide)

/-- C7: a Flickr item whose author has the `email (display name)` shape is
emitted with exactly the parenthesised name as author; an author without a
parenthesised portion is kept verbatim; and an item whose medium URL ends in
`_m.jpg` is emitted, with the emitted url ending in `_b.jpg`. -/
theorem flickr_author_and_large_url :
    (∀ (it : FlickrItem) (r : ImageRecord) (a n b : Str),
        processFlickrItem it = some r →
        it.author = some (a ++ '(' :: (n ++ ')' :: b)) →
        '(' ∉ a → '(' ∉ n → ')' ∉ n → r.author = some n) ∧
    (∀ (it : FlickrItem) (r : ImageRecord),
        processFlickrItem it = some r →
        ((it.author.getD []).contains '(' = false ∨
          (it.author.getD []).contains ')' = false) →
        r.author = some (it.author.getD [])) ∧
    (∀ (it : FlickrItem) (t : Str),
        it.media_m = some (t ++ mjpg) →
        ∃ r, processFlickrItem it = some r ∧ ∃ v, r.url = v ++ bjpg) := by
  refine ⟨?_, ?_, ?_⟩
  · intro it r a n b h hauth ha hn1 hn2
    rcases processFlickrItem_some h with ⟨_, _, hau, _, _⟩
    rw [hau, hauth]
    simp only [Option.getD_some]
    rw [extractAuthor_paren a n b ha hn1 hn2]
  · intro it r h hc
    rcases processFlickrItem_some h with ⟨_, _, hau, _, _⟩
    rw [hau, extractAuthor_no_paren _ hc]
  · intro it t hm
    have hurl : pyReplace (it.media_m.getD []) mjpg bjpg =
        pyReplace (t ++ mjpg) mjpg bjpg := by
      rw [hm]
      rfl
    rcases pyReplace_mjpg_ends t with ⟨v, hv⟩
    have hne : (pyReplace (it.media_m.getD []) mjpg bjpg).isEmpty = false := by
      rw [hurl, hv]
      have : v ++ bjpg ≠ [] := by
        rw [bjpg_eq]
        exact List.append_ne_nil_of_right_ne_nil v (by decide)
      exact List.isEmpty_eq_false.mpr this
    rcases processFlickrItem_emit hne with ⟨r, hr, hru⟩
    exact ⟨r, hr, v, by rw [hru, hurl, hv]⟩

theorem flickr_author_and_large_url_witness :
    ∃ r, processFlickrItem sampleFlickrItem = some r ∧
      r.author = some (lit "janedoe") ∧ ∃ v, r.url = v ++ bjpg := by
  rcases flickr_author_and_large_url.2.2 sampleFlickrItem
    (lit "https://live.staticflickr.com/1/2") (by decide) with ⟨r, hr, hv⟩
  exact ⟨r, hr,
    flickr_author_and_large_url.1 sampleFlickrItem r (lit "nobody@flickr.com ")
      (lit "janedoe") [] hr (by decide) (by decide) (by decide) (by decide), hv⟩

/-- C8: every record the Flickr adapter emits stores no score (`none`), so
the aggregator's sort key values it as 0. -/
theorem flickr_score_zero (cap : Nat) (resp : FetchResult FlickrItem) :
    ∀ r ∈ scrape_flickr_images cap resp, r.score = none ∧ scoreKey r = 0 := by
  intro r h
  rcases scrape_flickr_mem h with ⟨it, hp⟩
  have hs := (processFlickrItem_some hp).2.2.2.2
  refine ⟨hs, ?_⟩
  rw [scoreKey, hs]
  rfl

theorem flickr_score_zero_witness :
    sampleFlickrRecord.score = none ∧ scoreKey sampleFlickrRecord = 0 :=
  flickr_score_zero 5 (FetchResult.ok [sampleFlickrItem]) sampleFlickrRecord
    (by decide)

/-- C9: upstream failures never escape an adapter: a failed sub-community in
the Reddit loop is skipped and the loop's records equal those collected from
the remaining sub-communities; the single-shot Pinterest and Flickr adapters
return the empty list on transport error or bad HTTP status; and when the
whole Reddit source fails, the aggregate output is still a permutation of
the Pinterest and Flickr records. -/
theorem adapter_failure_isolation :
    (∀ (cap : Nat) (resp : Str → SubResult) (s : Str) (rest : List Str)
        (images : List ImageRecord),
        (resp s = SubResult.err ∨ ∃ code, resp s = SubResult.httpError code) →
        images.length < cap →
        (redditSubLoop cap resp (s :: rest) images).1 =
          (redditSubLoop cap resp rest images).1) ∧
    (∀ cap : Nat, scrape_pinterest_images cap FetchResult.err = [] ∧
        ∀ code, scrape_pinterest_images cap (FetchResult.httpError code) = []) ∧
    (∀ cap : Nat, scrape_flickr_images cap FetchResult.err = [] ∧
        ∀ code, scrape_flickr_images cap (FetchResult.httpError code) = []) ∧
    (∀ (query : Str) (cap : Nat) (rs : Responses),
        (∀ s, rs.reddit s = SubResult.err) →
        (main_aggregate query cap true true true rs).images.Perm
          (scrape_pinterest_images cap rs.pinterest ++
            scrape_flickr_images cap rs.flickr)) := by
  refine ⟨fun cap resp s rest images herr hlt => redditSubLoop_skip herr hlt,
    fun cap => ⟨rfl, fun code => rfl⟩, fun cap => ⟨rfl, fun code => rfl⟩, ?_⟩
  intro query cap rs h
  have hr : scrape_reddit_images cap rs.reddit = [] :=
    redditSubLoop_all_err h subreddits []
  have he : emittedImages cap true true true rs =
      scrape_reddit_images cap rs.reddit ++
        (scrape_pinterest_images cap rs.pinterest ++
          scrape_flickr_images cap rs.flickr) := rfl
  have himg : (main_aggregate query cap true true true rs).images =
      sortByScoreDesc (emittedImages cap true true true rs) := rfl
  rw [himg, he, hr, List.nil_append]
  exact List.mergeSort_perm _ scoreLe

theorem adapter_failure_isolation_witness :
    (redditSubLoop 3 sampleRespFail (lit "itookapicture" :: [lit "earthporn"]) []).1 =
      (redditSubLoop 3 sampleRespFail [lit "earthporn"] []).1 ∧
    (main_aggregate (lit "q") 3 true true true sampleResponsesErr).images.Perm
      (scrape_pinterest_images 3 sampleResponsesErr.pinterest ++
        scrape_flickr_images 3 sampleResponsesErr.flickr) :=
  ⟨adapter_failure_isolation.1 3 sampleRespFail (lit "itookapicture")
      [lit "earthporn"] [] (Or.inl (by decide)) (by decide),
    adapter_failure_isolation.2.2.2 (lit "q") 3 sampleResponsesErr (fun _ => rfl)⟩

/-- C10: every record the Reddit adapter emits carries a timestamp (the field
is never `none`): it is the ISO-8601 rendering of the post's `created_utc`
defaulted to epoch 0, so a post with no `created_utc` still gets the epoch-0
timestamp rather than an absent field. -/
theorem reddit_timestamp_always_present :
    (∀ (p : RedditPost) (r : ImageRecord), processRedditPost p = some r →
        r.timestamp = some (isoformatOfEpoch (p.created_utc.getD 0)) ∧
        (p.created_utc = none → r.timestamp = some (isoformatOfEpoch 0))) ∧
    (∀ (cap : Nat) (resp : Str → SubResult) (r : ImageRecord),
        r ∈ scrape_reddit_images cap resp → r.timestamp.isSome = true) := by
  constructor
  · intro p r h
    rcases processRedditPost_some h with ⟨_, _, hr⟩
    subst hr
    refine ⟨rfl, ?_⟩
    intro hn
    rw [show (mkRedditRecord p).timestamp =
      some (isoformatOfEpoch (p.created_utc.getD 0)) from rfl, hn]
    rfl
  · intro cap resp r h
    rcases redditSubLoop_mem subreddits [] h with hmem | ⟨p, hp⟩
    · exact absurd hmem (List.not_mem_nil r)
    · rcases processRedditPost_some hp with ⟨_, _, hr⟩
      rw [hr]
      rfl

theorem reddit_timestamp_always_present_witness :
    (mkRedditRecord samplePostNoTime).timestamp = some (isoformatOfEpoch 0) :=
  (reddit_timestamp_always_present.1 samplePostNoTime
    (mkRedditRecord samplePostNoTime) (by decide)).2 rfl
